import Mathlib

/-!
# cdc-print-json: the pipeline of `application.run` and `contextWithSig`

A shallow embedding of `src/cmd/cdc-print-json/main.go`.

* `Pipeline` embeds `application.run` (lines 85-119): the buffered channel
  `ch`, the source func literal (lines 101-104), the sink func literal
  (lines 105-117) and the runner that joins them.  The two goroutines are
  interleaved by a labelled step function `Pipeline.step`; an execution is
  a list of labels (`Pipeline.exec`).
* `CtxSig` embeds `contextWithSig` (lines 48-63).
-/

namespace Pipeline

/-- One CDC record: the bytes of a `[]byte` value sent over `ch`. -/
abbrev Record := List Nat

/-- Go `error` values that are not `nil`.  `nil` is `none` in `Option GoError`. -/
inductive GoError where
  | errConnReset
  | contextCanceled
  | other (code : Nat)
  deriving DecidableEq, Repr

/-- Program counter of the source func literal (main.go 101-104). -/
inductive SourcePc where
  /-- Inside `cdcClient.Read(ctx, nil, ch)`. -/
  | reading
  /-- `Read` has returned `ret`; the deferred `close(ch)` has not run yet. -/
  | closing (ret : Option GoError)
  /-- The func literal has returned `ret`. -/
  | returned (ret : Option GoError)
  deriving DecidableEq, Repr

/-- Program counter of the sink func literal (main.go 105-117). -/
inductive SinkPc where
  /-- At the `select` statement of line 107. -/
  | selecting
  /-- Received `line` with `ok = true`; about to run `os.Stdout.Write(line)`. -/
  | writing (line : Record)
  /-- The func literal has returned `ret`. -/
  | returned (ret : Option GoError)
  deriving DecidableEq, Repr

/-- State of one call of `application.run`. -/
structure State where
  /-- Records sent into `ch` so far, oldest first. -/
  pushed : List Record
  /-- Contents of the buffer of `ch`, oldest first. -/
  buf : List Record
  /-- Number of `close(ch)` operations executed; `ch` is closed iff not `0`.
  A second close would panic in Go; `ClosedByDefer` shows there is none. -/
  closes : Nat
  /-- Records handed to `os.Stdout.Write` at line 114, in call order. -/
  calls : List Record
  /-- Records written to standard output: those whose `os.Stdout.Write`
  returned no error, in order.  A failed write is taken to leave nothing of
  its record on the device. -/
  out : List Record
  /-- Errors returned by `os.Stdout.Write`; line 114 drops its results. -/
  werrs : List GoError
  /-- Whether the context handed to both tasks is done. -/
  cancelled : Bool
  source : SourcePc
  sink : SinkPc
  /-- Task results in the order the runner observed them. -/
  reports : List (Option GoError)
  /-- The runner has observed the result of the source task. -/
  srcSeen : Bool
  /-- The runner has observed the result of the sink task. -/
  snkSeen : Bool
  deriving DecidableEq, Repr

/-- State at line 99: `ch` freshly made, both tasks at their first statement. -/
def init : State :=
  { pushed := [], buf := [], closes := 0, calls := [], out := [], werrs := [],
    cancelled := false, source := .reading, sink := .selecting,
    reports := [], srcSeen := false, snkSeen := false }

/-- Labels of the atomic steps of `application.run`. -/
inductive Action where
  /-- `Read` sends `r` on `ch`. -/
  | push (r : Record)
  /-- `Read` returns `e`. -/
  | readReturn (e : Option GoError)
  /-- The deferred `close(ch)` of line 102 runs and the source returns. -/
  | closeCh
  /-- The `case <-ctx.Done()` branch of the sink's `select` (lines 108-109). -/
  | sinkDone
  /-- The `case line, ok := <-ch` branch of the sink's `select` (lines 110-113). -/
  | sinkRecv
  /-- Line 114, `os.Stdout.Write(line)`, the device answering `res`. -/
  | sinkWrite (res : Option GoError)
  /-- The context passed to `run` becomes done (signal or parent). -/
  | cancel
  /-- The runner observes the result of the source task. -/
  | observeSource
  /-- The runner observes the result of the sink task. -/
  | observeSink
  deriving DecidableEq, Repr

/-- Modelled from the spec: `run.CancelOnFirstError` of `github.com/bborbe/run`
is not in the source tree.  Section 4.5: the first non-nil error reported is
the terminal result and later outcomes are discarded; if no task reports an
error the result is success.  `reports` lists the task results in the order
the runner observed them. -/
def cancelOnFirstError : List (Option GoError) → Option GoError
  | [] => none
  | some e :: _ => some e
  | none :: rest => cancelOnFirstError rest

/-- Modelled from the spec: the runner's bookkeeping when it observes a task
result `e` (section 4.5): the result is recorded, and a non-nil error
triggers the cancellation of the shared context at once. -/
def observe (s : State) (e : Option GoError) : State :=
  { s with reports := s.reports ++ [e], cancelled := s.cancelled || e.isSome }

/-- One atomic step of `application.run` with channel capacity `cap`
(`runtime.NumCPU()`, line 98); `none` when the step is not enabled.

The source steps follow lines 101-104: `Read` sends records and returns, then
the deferred `close(ch)` runs.  Modelled from the spec: `cdc.MaxscaleReader.Read`
is not in the source tree; section 6 makes it a producer of a sequence of
records that ends normally or with an error, so `push` and `readReturn` are
free choices of the environment, and a send blocks while the buffer is full
(`runtime.NumCPU()` is at least one, so a send to a waiting receiver is a
send into the buffer followed by a receive).
The sink steps follow lines 105-117; line 114 drops both results of
`os.Stdout.Write`, so after a failed write the record is missing from `out`
and the sink is back at its `select`.  The runner steps use `observe`. -/
def step (cap : Nat) (s : State) : Action → Option State
  | .push r =>
    match s.source with
    | .reading =>
      if s.buf.length < cap then
        some { s with pushed := s.pushed ++ [r], buf := s.buf ++ [r] }
      else none
    | _ => none
  | .readReturn e =>
    match s.source with
    | .reading => some { s with source := .closing e }
    | _ => none
  | .closeCh =>
    match s.source with
    | .closing e => some { s with closes := s.closes + 1, source := .returned e }
    | _ => none
  | .sinkDone =>
    match s.sink with
    | .selecting => if s.cancelled then some { s with sink := .returned none } else none
    | _ => none
  | .sinkRecv =>
    match s.sink with
    | .selecting =>
      match s.buf with
      | line :: rest => some { s with buf := rest, sink := .writing line }
      | [] => if s.closes ≠ 0 then some { s with sink := .returned none } else none
    | _ => none
  | .sinkWrite res =>
    match s.sink with
    | .writing line =>
      match res with
      | none =>
        some { s with calls := s.calls ++ [line], out := s.out ++ [line],
                      sink := .selecting }
      | some e =>
        some { s with calls := s.calls ++ [line], werrs := s.werrs ++ [e],
                      sink := .selecting }
    | _ => none
  | .cancel => some { s with cancelled := true }
  | .observeSource =>
    match s.source with
    | .returned e => if s.srcSeen then none else some { observe s e with srcSeen := true }
    | _ => none
  | .observeSink =>
    match s.sink with
    | .returned e => if s.snkSeen then none else some { observe s e with snkSeen := true }
    | _ => none

/-- Run a schedule of steps from `s`; `none` if some step is not enabled. -/
def exec (cap : Nat) (s : State) : List Action → Option State
  | [] => some s
  | a :: rest =>
    match step cap s a with
    | some s' => exec cap s' rest
    | none => none

/-- The record the sink holds between its receive and its write. -/
def inflight : SinkPc → List Record
  | .writing line => [line]
  | _ => []

/-- Both tasks have returned and the runner has observed both results. -/
def terminated (s : State) : Bool := s.srcSeen && s.snkSeen

/-- Value returned by `application.run` in a terminated state. -/
def runResult (s : State) : Option GoError := cancelOnFirstError s.reports

/-- Values returned by `Read` along a schedule. -/
def readReturns : List Action → List (Option GoError)
  | [] => []
  | .readReturn e :: rest => e :: readReturns rest
  | _ :: rest => readReturns rest

/-- The steps that belong to the sink func literal. -/
def isSinkAction : Action → Bool
  | .sinkDone => true
  | .sinkRecv => true
  | .sinkWrite _ => true
  | _ => false

/-- Channel accounting: every record sent has been handed to
`os.Stdout.Write`, is held by the sink, or is buffered. -/
def Accounted (s : State) : Prop :=
  s.pushed = s.calls ++ inflight s.sink ++ s.buf

/-- Device accounting: the output is what was handed to `os.Stdout.Write`
less the records whose write failed, one error per missing record. -/
def Delivered (s : State) : Prop :=
  s.out.Sublist s.calls ∧ s.calls.length = s.out.length + s.werrs.length

/-- The channel is closed by the source's deferred `close(ch)` and by nothing
else: the count of closes is `1` once the source has returned, `0` before. -/
def ClosedByDefer (s : State) : Prop :=
  s.closes = (match s.source with | .returned _ => 1 | _ => 0)

/-- The sink only ever returns `nil`, and it returns only on a done context
or on a closed and drained channel. -/
def SinkExit (s : State) : Prop :=
  ∀ e, s.sink = .returned e →
    e = none ∧ (s.cancelled = true ∨ (s.buf = [] ∧ s.closes ≠ 0))

/-- What the runner has recorded agrees with what the tasks returned. -/
def ReportsOk (s : State) : Prop :=
  match s.srcSeen, s.snkSeen with
  | false, false => s.reports = []
  | true, false => ∃ a, s.source = .returned a ∧ s.reports = [a]
  | false, true => ∃ b, s.sink = .returned b ∧ s.reports = [b]
  | true, true => ∃ a b, s.source = .returned a ∧ s.sink = .returned b ∧
      (s.reports = [a, b] ∨ s.reports = [b, a])

/-- A recorded error has cancelled the shared context. -/
def CancelledOnError (s : State) : Prop :=
  ∀ e, some e ∈ s.reports → s.cancelled = true

/-- The source's program counter agrees with the values `Read` returned. -/
def SourceTracks (l : List (Option GoError)) (s : State) : Prop :=
  match s.source with
  | .reading => l = []
  | .closing e => l = [e]
  | .returned e => l = [e]

/-- Schedule that lets the sink take every buffered record and write it. -/
def drainBuf : List Record → List Action
  | [] => []
  | _ :: rest => .sinkRecv :: .sinkWrite none :: drainBuf rest

/-- Schedule of sink steps that finishes the sink on a closed channel. -/
def drainActs (s : State) : List Action :=
  match s.sink with
  | .returned _ => []
  | .writing _ => .sinkWrite none :: (drainBuf s.buf ++ [.sinkRecv])
  | .selecting => drainBuf s.buf ++ [.sinkRecv]

/-- Schedule in which every record is sent, received and written in turn. -/
def relay : List Record → List Action
  | [] => []
  | r :: rest => .push r :: .sinkRecv :: .sinkWrite none :: relay rest

/-- Schedule of a complete run without failure: the source sends `rs`, `Read`
returns `nil`, the channel is closed, the sink sees the end of the stream. -/
def normalRun (rs : List Record) : List Action :=
  relay rs ++ [.readReturn none, .closeCh, .sinkRecv, .observeSource, .observeSink]

/-- Record `a` of the scenarios of section 8. -/
def recA : Record := [97]

/-- Record `b` of the scenarios of section 8. -/
def recB : Record := [98]

/-- Record `c` of the scenarios of section 8. -/
def recC : Record := [99]

/-- State reached by `normalRun [recA, recB, recC]`. -/
def abcFinal : State :=
  { init with pushed := [recA, recB, recC], calls := [recA, recB, recC],
              out := [recA, recB, recC], closes := 1,
              source := .returned none, sink := .returned none,
              reports := [none, none], srcSeen := true, snkSeen := true }

/-- An error of the output device (`EPIPE`). -/
def errPipe : GoError := .other 32

/-- Schedule on a channel of capacity 2: `a` and `b` are sent, the write of
`a` fails and the write of `b` succeeds. -/
def skipSched : List Action :=
  [.push recA, .push recB, .sinkRecv, .sinkWrite (some errPipe), .sinkRecv,
   .sinkWrite none]

/-- State reached by `skipSched`. -/
def skipState : State :=
  { init with pushed := [recA, recB], calls := [recA, recB], out := [recB],
              werrs := [errPipe] }

/-- A complete run on a channel of capacity 1 without cancellation: the
source sends `a`, `b`, `c`, `Read` returns `nil`, the channel is closed and
the sink sees the end of the stream; the write of `a` fails. -/
def lossySched : List Action :=
  [.push recA, .sinkRecv, .sinkWrite (some errPipe), .push recB, .sinkRecv,
   .sinkWrite none, .push recC, .sinkRecv, .sinkWrite none, .readReturn none,
   .closeCh, .sinkRecv, .observeSource, .observeSink]

/-- State reached by `lossySched`. -/
def lossyState : State :=
  { init with pushed := [recA, recB, recC], calls := [recA, recB, recC],
              out := [recB, recC], werrs := [errPipe], closes := 1,
              source := .returned none, sink := .returned none,
              reports := [none, none], srcSeen := true, snkSeen := true }

/-- Schedule on a channel of capacity 2 in which the write of `a` fails. -/
def writeFailSched : List Action :=
  [.push recA, .push recB, .sinkRecv, .sinkWrite (some errPipe), .sinkRecv,
   .sinkWrite none, .readReturn none, .closeCh, .sinkRecv]

/-- State reached by `writeFailSched`. -/
def writeFailState : State :=
  { init with pushed := [recA, recB], calls := [recA, recB], out := [recB],
              werrs := [errPipe], closes := 1, source := .returned none,
              sink := .returned none }

/-- Schedule after which the sink holds `a`, received and not yet written. -/
def heldSched : List Action := [.push recA, .sinkRecv]

/-- State reached by `heldSched`. -/
def heldState : State := { init with pushed := [recA], sink := .writing recA }

/-- Schedule in which `Read` sends `a` and fails with `ErrConnReset`. -/
def readFailSched : List Action :=
  [.push recA, .readReturn (some .errConnReset), .closeCh]

/-- State reached by `readFailSched`. -/
def readFailState : State :=
  { init with pushed := [recA], buf := [recA], closes := 1,
              source := .returned (some .errConnReset) }

/-- State reached by the first two steps of `readFailSched`. -/
def readFailedState : State :=
  { init with pushed := [recA], buf := [recA],
              source := .closing (some .errConnReset) }

/-- The failure scenario of section 8 with the sink taking the `ctx.Done()`
branch while `a` is still in the buffer. -/
def dropSched : List Action :=
  [.push recA, .readReturn (some .errConnReset), .closeCh, .observeSource,
   .sinkDone, .observeSink]

/-- State reached by `dropSched`. -/
def dropState : State :=
  { init with pushed := [recA], buf := [recA], closes := 1, cancelled := true,
              source := .returned (some .errConnReset), sink := .returned none,
              reports := [some .errConnReset, none], srcSeen := true, snkSeen := true }

/-- The failure scenario of section 8 with `a` written before the failure. -/
def keepSched : List Action :=
  [.push recA, .sinkRecv, .sinkWrite none, .readReturn (some .errConnReset),
   .closeCh, .observeSource, .sinkDone, .observeSink]

/-- State reached by `keepSched`. -/
def keepState : State :=
  { init with pushed := [recA], calls := [recA], out := [recA], closes := 1,
              cancelled := true,
              source := .returned (some .errConnReset), sink := .returned none,
              reports := [some .errConnReset, none], srcSeen := true, snkSeen := true }

/-- State after the context is cancelled while `Read` is in progress. -/
def cancelledReading : State := { init with cancelled := true }

/-- Steps in which `Read` answers the cancellation with `context.Canceled`. -/
def cancelErrSched : List Action := [.readReturn (some .contextCanceled), .closeCh]

/-- State reached from `cancelledReading` by `cancelErrSched`. -/
def cancelErrState : State :=
  { init with cancelled := true, closes := 1,
              source := .returned (some .contextCanceled) }

/-- A sink blocked on an empty, open channel with the context done. -/
def blockedCancelled : State := { init with cancelled := true }

/-- Both tasks have returned an error and the runner has observed neither.
No execution of `application.run` reaches this state, since its sink only
returns `nil`; it stands for the runner handed two failing tasks. -/
def bothFailed : State :=
  { init with closes := 1, source := .returned (some .errConnReset),
              sink := .returned (some errPipe) }

/-- State reached from `bothFailed` when the runner observes the sink first. -/
def bothFailedDone : State :=
  { bothFailed with reports := [some errPipe, some .errConnReset], cancelled := true,
                    srcSeen := true, snkSeen := true }

/-- Everything the step invariants say about a state. -/
def Inv (cap : Nat) (s : State) : Prop :=
  Accounted s ∧ (ClosedByDefer s ∧ SinkExit s) ∧ ReportsOk s ∧ CancelledOnError s ∧
    s.buf.length ≤ cap

end Pipeline

namespace CtxSig

/-- Program counter of the goroutine started by `contextWithSig` (lines 50-60). -/
inductive GoPc where
  /-- Before `signal.Notify` of line 54 has run. -/
  | subscribing
  /-- At the `select` of line 56. -/
  | selecting
  /-- Past the `select`; the deferred `cancel()` of line 51 has not run yet. -/
  | cancelling
  /-- The goroutine has ended. -/
  | exited
  deriving DecidableEq, Repr

/-- State of one call of `contextWithSig`. -/
structure SigState where
  /-- The parent context `ctx` is done. -/
  parent : Bool
  /-- A subscribed signal (`os.Interrupt`, `SIGINT`, `SIGTERM`) has been
  delivered to `signalCh`. -/
  sig : Bool
  /-- The buffer of `signalCh` (capacity 1) holds a signal. -/
  pending : Bool
  /-- The returned context `ctxWithCancel` is done. -/
  derived : Bool
  pc : GoPc
  deriving DecidableEq, Repr

/-- State when `contextWithSig` returns: `context.WithCancel` of line 49
hands out a context that is done iff the parent already is. -/
def sigInit (parentDone : Bool) : SigState :=
  { parent := parentDone, sig := false, pending := false, derived := parentDone,
    pc := .subscribing }

/-- Labels of the atomic steps around `contextWithSig`. -/
inductive SigAction where
  /-- The parent context is cancelled. -/
  | parentCancel
  /-- `context.WithCancel` passes the parent's cancellation on to the child. -/
  | propagate
  /-- Lines 53-54: `signalCh` is made and subscribed with `signal.Notify`. -/
  | notify
  /-- A subscribed signal arrives and is delivered to `signalCh`. -/
  | signal
  /-- The `case <-signalCh` branch of the `select` (line 57). -/
  | wakeSignal
  /-- The `case <-ctx.Done()` branch of the `select` (line 58). -/
  | wakeParent
  /-- The deferred `cancel()` of line 51 runs and the goroutine ends. -/
  | deferCancel
  deriving DecidableEq, Repr

/-- One atomic step; `none` when the step is not enabled.  A signal reaches
`signalCh` only once `signal.Notify` has subscribed it; a second signal finds
the buffer full and is dropped by the runtime. -/
def sigStep (s : SigState) : SigAction → Option SigState
  | .parentCancel => some { s with parent := true }
  | .propagate => if s.parent then some { s with derived := true } else none
  | .notify =>
    match s.pc with
    | .subscribing => some { s with pc := .selecting }
    | _ => none
  | .signal =>
    match s.pc with
    | .subscribing => none
    | _ => some { s with sig := true, pending := true }
  | .wakeSignal =>
    match s.pc with
    | .selecting => if s.pending then some { s with pending := false, pc := .cancelling } else none
    | _ => none
  | .wakeParent =>
    match s.pc with
    | .selecting => if s.parent then some { s with pc := .cancelling } else none
    | _ => none
  | .deferCancel =>
    match s.pc with
    | .cancelling => some { s with derived := true, pc := .exited }
    | _ => none

/-- Run a schedule of steps from `s`; `none` if some step is not enabled. -/
def sigExec (s : SigState) : List SigAction → Option SigState
  | [] => some s
  | a :: rest =>
    match sigStep s a with
    | some s' => sigExec s' rest
    | none => none

/-- One of the two triggers has happened. -/
def triggered (s : SigState) : Bool := s.parent || s.sig

/-- The steps the goroutine has left to take once a trigger has happened. -/
def finish (s : SigState) : List SigAction :=
  match s.pc with
  | .subscribing => [.notify, .wakeParent, .deferCancel]
  | .selecting => [if s.pending then .wakeSignal else .wakeParent, .deferCancel]
  | .cancelling => [.deferCancel]
  | .exited => []

/-- What holds in every reachable state of `contextWithSig`. -/
def SigInv (s : SigState) : Prop :=
  (s.derived = true → s.parent = true ∨ s.sig = true) ∧
    (s.pc = .subscribing → s.sig = false ∧ s.pending = false) ∧
    (s.pc = .selecting → s.pending = s.sig) ∧
    (s.pc = .cancelling → s.parent = true ∨ s.sig = true) ∧
    (s.pc = .exited → s.derived = true)

/-- State after a signal has arrived with the goroutine at its `select`. -/
def signalled : SigState :=
  { parent := false, sig := true, pending := true, derived := false, pc := .selecting }

end CtxSig

namespace Pipeline

set_option linter.unusedTactic false

/-! ## Generic facts about executions -/

theorem exec_append (cap : Nat) (xs ys : List Action) (s : State) :
    exec cap s (xs ++ ys) = (exec cap s xs).bind (fun t => exec cap t ys) := by
  induction xs generalizing s with
  | nil => rfl
  | cons a rest ih =>
    simp only [List.cons_append, exec]
    cases step cap s a with
    | none => rfl
    | some t => exact ih t

/-- Invariants of single steps hold along every execution. -/
theorem exec_preserves (cap : Nat) (P : State → Prop)
    (hstep : ∀ s a t, P s → step cap s a = some t → P t) :
    ∀ (acts : List Action) (s t : State), P s → exec cap s acts = some t → P t := by
  intro acts
  induction acts with
  | nil =>
    intro s t hs h
    simp only [exec, Option.some.injEq] at h
    exact h ▸ hs
  | cons a rest ih =>
    intro s t hs h
    simp only [exec] at h
    cases hst : step cap s a with
    | none => simp [hst] at h
    | some u =>
      rw [hst] at h
      exact ih u t (hstep s a u hs hst) h

theorem accounted_step (cap : Nat) (s : State) (a : Action) (t : State)
    (hs : Accounted s) (h : step cap s a = some t) : Accounted t := by
  unfold Accounted at *
  cases a <;> simp only [step] at h <;> (repeat' (split at h)) <;>
    (first | (simp at h; done) | skip) <;>
    (simp only [Option.some.injEq] at h; subst h; simp_all [inflight, observe])

theorem closedByDefer_step (cap : Nat) (s : State) (a : Action) (t : State)
    (hs : ClosedByDefer s) (h : step cap s a = some t) : ClosedByDefer t := by
  unfold ClosedByDefer at *
  cases a <;> simp only [step] at h <;> (repeat' (split at h)) <;>
    (first | (simp at h; done) | skip) <;>
    (simp only [Option.some.injEq] at h; subst h; simp_all [observe])

theorem bounded_step (cap : Nat) (s : State) (a : Action) (t : State)
    (hs : s.buf.length ≤ cap) (h : step cap s a = some t) : t.buf.length ≤ cap := by
  cases a <;> simp only [step] at h <;> (repeat' (split at h)) <;>
    (first | (simp at h; done) | skip) <;>
    (simp only [Option.some.injEq] at h; subst h; simp_all [observe]) <;> omega

theorem sinkExit_step (cap : Nat) (s : State) (a : Action) (t : State)
    (hs : ClosedByDefer s ∧ SinkExit s) (h : step cap s a = some t) :
    ClosedByDefer t ∧ SinkExit t := by
  refine ⟨closedByDefer_step cap s a t hs.1 h, ?_⟩
  obtain ⟨hc, hs⟩ := hs
  unfold ClosedByDefer at hc
  unfold SinkExit at *
  cases a <;> simp only [step] at h <;> (repeat' (split at h)) <;>
    (first | (simp at h; done) | skip) <;>
    (simp only [Option.some.injEq] at h; subst h; intro e he) <;>
    (first
      | (have h1 := hs e he; simp_all [observe]; done)
      | (have h1 := hs e he
         simp only [observe] at *
         rcases h1 with ⟨h1, h2 | h2⟩ <;> simp_all)
      | (simp_all [observe]; done))

theorem reportsOk_step (cap : Nat) (s : State) (a : Action) (t : State)
    (hs : ReportsOk s) (h : step cap s a = some t) : ReportsOk t := by
  unfold ReportsOk at *
  cases hA : s.srcSeen <;> cases hB : s.snkSeen <;> rw [hA, hB] at hs <;>
    cases a <;> simp only [step] at h <;> (repeat' (split at h)) <;>
    (first | (simp at h; done) | skip) <;>
    (simp only [Option.some.injEq] at h; subst h) <;>
    (first
      | (simp_all [observe]; done)
      | (obtain ⟨b, hb, hr⟩ := hs; simp_all [observe]))

theorem cancelledOnError_step (cap : Nat) (s : State) (a : Action) (t : State)
    (hs : CancelledOnError s) (h : step cap s a = some t) : CancelledOnError t := by
  unfold CancelledOnError at *
  cases a <;> simp only [step] at h <;> (repeat' (split at h)) <;>
    (first | (simp at h; done) | skip) <;>
    (simp only [Option.some.injEq] at h; subst h; intro e he) <;>
    (first
      | exact hs e he
      | (simp only [observe, List.mem_append, List.mem_singleton, Bool.or_eq_true] at he ⊢
         rcases he with he | he
         · exact Or.inl (hs e he)
         · exact Or.inr (by rw [← he]; rfl))
      | (simp_all [observe]; done))

theorem sourceTracks_step (cap : Nat) (l : List (Option GoError)) (s : State)
    (a : Action) (t : State)
    (hs : SourceTracks l s) (h : step cap s a = some t) :
    SourceTracks (l ++ readReturns [a]) t := by
  unfold SourceTracks at *
  cases a <;> simp only [step] at h <;> (repeat' (split at h)) <;>
    (first | (simp at h; done) | skip) <;>
    (simp only [Option.some.injEq] at h; subst h; simp_all [observe, readReturns])

/-- A returned source func stays returned with the same result. -/
theorem returned_source_step (cap : Nat) (s : State) (a : Action) (t : State)
    (r : Option GoError) (hs : s.source = .returned r) (h : step cap s a = some t) :
    t.source = .returned r := by
  cases a <;> simp only [step] at h <;> (repeat' (split at h)) <;>
    (first | (simp at h; done) | skip) <;>
    (simp only [Option.some.injEq] at h; subst h; simp_all [observe])

/-- A returned sink func stays returned with the same result. -/
theorem returned_sink_step (cap : Nat) (s : State) (a : Action) (t : State)
    (r : Option GoError) (hs : s.sink = .returned r) (h : step cap s a = some t) :
    t.sink = .returned r := by
  cases a <;> simp only [step] at h <;> (repeat' (split at h)) <;>
    (first | (simp at h; done) | skip) <;>
    (simp only [Option.some.injEq] at h; subst h; simp_all [observe])

theorem inv_init (cap : Nat) : Inv cap init := by
  refine ⟨rfl, ⟨rfl, ?_⟩, rfl, ?_, Nat.zero_le _⟩
  · intro e he
    simp [init] at he
  · intro e he
    simp [init] at he

theorem inv_reach (cap : Nat) (acts : List Action) (s : State)
    (h : exec cap init acts = some s) : Inv cap s := by
  refine exec_preserves cap (Inv cap) ?_ acts init s (inv_init cap) h
  intro u a t hu hstep
  exact ⟨accounted_step cap u a t hu.1 hstep, sinkExit_step cap u a t hu.2.1 hstep,
    reportsOk_step cap u a t hu.2.2.1 hstep, cancelledOnError_step cap u a t hu.2.2.2.1 hstep,
    bounded_step cap u a t hu.2.2.2.2 hstep⟩

theorem readReturns_append (xs ys : List Action) :
    readReturns (xs ++ ys) = readReturns xs ++ readReturns ys := by
  induction xs with
  | nil => rfl
  | cons a rest ih => cases a <;> simp [readReturns, ih]

theorem sourceTracks_exec (cap : Nat) (acts : List Action) :
    ∀ (l : List (Option GoError)) (s t : State), SourceTracks l s →
      exec cap s acts = some t → SourceTracks (l ++ readReturns acts) t := by
  induction acts with
  | nil =>
    intro l s t hs h
    simp only [exec, Option.some.injEq] at h
    subst h
    simpa [readReturns] using hs
  | cons a rest ih =>
    intro l s t hs h
    simp only [exec] at h
    cases hst : step cap s a with
    | none => simp [hst] at h
    | some u =>
      rw [hst] at h
      have hu := sourceTracks_step cap l s a u hs hst
      have ht := ih (l ++ readReturns [a]) u t hu h
      have hsplit : readReturns (a :: rest) = readReturns [a] ++ readReturns rest :=
        readReturns_append [a] rest
      rw [hsplit, ← List.append_assoc]
      exact ht

theorem cancelOnFirstError_none (l : List (Option GoError))
    (h : ∀ x ∈ l, x = none) : cancelOnFirstError l = none := by
  induction l with
  | nil => rfl
  | cons x rest ih =>
    have hx : x = none := h x (List.mem_cons_self _ _)
    subst hx
    simp only [cancelOnFirstError]
    exact ih (fun y hy => h y (List.mem_cons_of_mem _ hy))

theorem delivered_step (cap : Nat) (s : State) (a : Action) (t : State)
    (hs : Delivered s) (h : step cap s a = some t) : Delivered t := by
  unfold Delivered at *
  obtain ⟨hsub, hlen⟩ := hs
  cases a <;> simp only [step] at h <;> (repeat' (split at h)) <;>
    (first | (simp at h; done) | skip) <;>
    (simp only [Option.some.injEq] at h; subst h) <;>
    (first
      | exact ⟨hsub, hlen⟩
      | (refine ⟨List.Sublist.append hsub (List.Sublist.refl _), ?_⟩
         simp only [List.length_append, List.length_singleton]
         omega)
      | (refine ⟨hsub.trans (List.sublist_append_left _ _), ?_⟩
         simp only [List.length_append, List.length_singleton]
         omega))

theorem delivered_reach (cap : Nat) (acts : List Action) (s : State)
    (h : exec cap init acts = some s) : Delivered s :=
  exec_preserves cap Delivered (delivered_step cap) acts init s
    ⟨List.Sublist.refl _, rfl⟩ h

/-- With no failed write the output is what was handed to `os.Stdout.Write`. -/
theorem delivered_all (s : State) (hs : Delivered s) (hw : s.werrs = []) :
    s.out = s.calls := by
  obtain ⟨hsub, hlen⟩ := hs
  rw [hw] at hlen
  exact hsub.eq_of_length (by simpa using hlen.symm)

/-- On a closed channel the sink empties the buffer and returns `nil`. -/
theorem drainBuf_exec (cap : Nat) (b : List Record) :
    ∀ s : State, s.buf = b → s.sink = .selecting → s.closes ≠ 0 →
      ∃ t, exec cap s (drainBuf b ++ [.sinkRecv]) = some t ∧ t.sink = .returned none ∧
        t.calls = s.calls ++ b ∧ t.out = s.out ++ b ∧ t.werrs = s.werrs ∧
        t.pushed = s.pushed ∧ t.cancelled = s.cancelled := by
  induction b with
  | nil =>
    intro s hb hsel hcl
    refine ⟨{ s with sink := .returned none }, ?_, rfl, by simp, by simp, rfl, rfl, rfl⟩
    simp [drainBuf, exec, step, hsel, hb, hcl]
  | cons r rest ih =>
    intro s hb hsel hcl
    obtain ⟨t, ht, h1, h2, h3, h4, h5, h6⟩ :=
      ih { s with buf := rest, calls := s.calls ++ [r], out := s.out ++ [r],
                  sink := .selecting } rfl rfl hcl
    refine ⟨t, ?_, h1, by simpa using h2, by simpa using h3, h4, h5, h6⟩
    simpa [drainBuf, exec, step, hsel, hb] using ht

theorem drainActs_exec (cap : Nat) (s : State) (hcl : s.closes ≠ 0)
    (hex : ∀ e, s.sink = .returned e → e = none ∧ s.buf = []) :
    ∃ t, exec cap s (drainActs s) = some t ∧ t.sink = .returned none ∧
      t.calls = s.calls ++ inflight s.sink ++ s.buf ∧
      t.out = s.out ++ inflight s.sink ++ s.buf ∧ t.werrs = s.werrs ∧
      t.pushed = s.pushed ∧ t.cancelled = s.cancelled := by
  cases hsk : s.sink with
  | selecting =>
    obtain ⟨t, ht, h1, h2, h3, h4, h5, h6⟩ := drainBuf_exec cap s.buf s rfl hsk hcl
    exact ⟨t, by simpa [drainActs, hsk] using ht, h1, by simpa [inflight] using h2,
      by simpa [inflight] using h3, h4, h5, h6⟩
  | writing line =>
    obtain ⟨t, ht, h1, h2, h3, h4, h5, h6⟩ :=
      drainBuf_exec cap s.buf
        { s with calls := s.calls ++ [line], out := s.out ++ [line], sink := .selecting }
        rfl rfl hcl
    refine ⟨t, ?_, h1, by simpa [inflight] using h2, by simpa [inflight] using h3,
      h4, h5, h6⟩
    simpa [drainActs, hsk, exec, step] using ht
  | returned e =>
    obtain ⟨he, hb⟩ := hex e hsk
    subst he
    exact ⟨s, by simp [drainActs, hsk, exec], hsk, by simp [inflight, hb],
      by simp [inflight, hb], rfl, rfl, rfl⟩

/-- On an empty buffer every record of `relay rs` is sent, received and
written in turn. -/
theorem relay_exec (cap : Nat) (hcap : 0 < cap) (rs : List Record) :
    ∀ s : State, s.source = .reading → s.sink = .selecting → s.buf = [] →
      exec cap s (relay rs) =
        some { s with pushed := s.pushed ++ rs, calls := s.calls ++ rs,
                      out := s.out ++ rs } := by
  induction rs with
  | nil =>
    intro s _ _ _
    simp [relay, exec]
  | cons r rest ih =>
    intro s hsrc hsel hb
    have hstep :
        exec cap s (relay (r :: rest)) =
          exec cap { s with pushed := s.pushed ++ [r], calls := s.calls ++ [r],
                            out := s.out ++ [r] } (relay rest) := by
      simp only [relay, exec, step, hsrc, hsel, hb, List.length_nil, hcap, if_true,
        List.nil_append]
    rw [hstep]
    have hrest :=
      ih { s with pushed := s.pushed ++ [r], calls := s.calls ++ [r], out := s.out ++ [r] }
        hsrc hsel hb
    rw [hrest]
    simp

/-- For every list of records and every capacity of at least one, the
complete run `normalRun rs` is enabled and ends with exactly `rs` written, no
write failed, and result `nil`. -/
theorem normalRun_complete (cap : Nat) (hcap : 0 < cap) (rs : List Record) :
    ∃ t, exec cap init (normalRun rs) = some t ∧ t.pushed = rs ∧ t.out = rs ∧
      t.werrs = [] ∧ t.source = .returned none ∧ t.sink = .returned none ∧
      t.cancelled = false ∧ terminated t = true ∧ runResult t = none := by
  refine ⟨{ init with pushed := rs, calls := rs, out := rs, closes := 1,
                      source := .returned none, sink := .returned none,
                      reports := [none, none], srcSeen := true, snkSeen := true },
    ?_, rfl, rfl, rfl, rfl, rfl, rfl, rfl, rfl⟩
  unfold normalRun
  rw [exec_append, relay_exec cap hcap rs init rfl rfl rfl]
  simp [exec, step, observe, init]

/-! ## The claims about `application.run` -/

/-- Counterexample to C1: `a` and `b` are sent, the write of `a` fails and the
write of `b` succeeds; the output `b` is not a prefix of the records sent. -/
theorem sink_output_not_prefix_after_failed_write :
    exec 2 init skipSched = some skipState ∧ skipState.pushed = [recA, recB] ∧
      skipState.out = [recB] ∧ ¬ (skipState.out <+: skipState.pushed) :=
  ⟨by decide, by decide, by decide, by decide⟩

/-- C1 as amended.  In every state `application.run` can reach, whatever the
channel capacity and the schedule: the records handed to `os.Stdout.Write`
are a prefix of the records sent into `ch` (the records sent are those, then
the one the sink holds, then the buffer, which never exceeds the capacity);
the records written to the output are those handed to `os.Stdout.Write` less
one record per failed write, so they are a subsequence of the records sent in
the order sent, none reordered or written twice; and as long as no write has
failed the output is a prefix of the records sent. -/
theorem sink_output_in_order (cap : Nat) (acts : List Action) (s : State)
    (h : exec cap init acts = some s) :
    s.out.Sublist s.pushed ∧ s.calls <+: s.pushed ∧ s.out.Sublist s.calls ∧
      s.calls.length = s.out.length + s.werrs.length ∧
      (s.werrs = [] → s.out <+: s.pushed) ∧
      s.pushed = s.calls ++ inflight s.sink ++ s.buf ∧ s.buf.length ≤ cap := by
  have hinv := inv_reach cap acts s h
  have hdel := delivered_reach cap acts s h
  have hacc : s.pushed = s.calls ++ inflight s.sink ++ s.buf := hinv.1
  have hpre : s.calls <+: s.pushed := by
    rw [hacc, List.append_assoc]
    exact List.prefix_append _ _
  refine ⟨hdel.1.trans hpre.sublist, hpre, hdel.1, hdel.2, ?_, hacc, hinv.2.2.2.2⟩
  intro hw
  rw [delivered_all s hdel hw]
  exact hpre

/-- Witness of the amended C1: two records sent on a channel of capacity 2,
the write of the first failed, the second written. -/
theorem sink_output_in_order_witness :
    exec 2 init skipSched = some skipState ∧
      (skipState.out.Sublist skipState.pushed ∧ skipState.calls <+: skipState.pushed ∧
        skipState.out.Sublist skipState.calls ∧
        skipState.calls.length = skipState.out.length + skipState.werrs.length ∧
        (skipState.werrs = [] → skipState.out <+: skipState.pushed) ∧
        skipState.pushed = skipState.calls ++ inflight skipState.sink ++ skipState.buf ∧
        skipState.buf.length ≤ 2) :=
  ⟨by decide, sink_output_in_order 2 skipSched skipState (by decide)⟩

/-- Counterexample to C2: the source sends `a`, `b`, `c`, `Read` returns
`nil`, the channel is closed and the context is never cancelled; the write of
`a` fails, and the sink returns `nil` with only `b`, `c` written. -/
theorem normal_completion_loses_failed_write :
    exec 1 init lossySched = some lossyState ∧
      lossyState.pushed = [recA, recB, recC] ∧ lossyState.source = .returned none ∧
      lossyState.cancelled = false ∧ lossyState.sink = .returned none ∧
      terminated lossyState = true ∧ runResult lossyState = none ∧
      lossyState.out = [recB, recC] ∧ lossyState.out ≠ lossyState.pushed :=
  ⟨by decide, by decide, by decide, by decide, by decide, by decide, by decide,
    by decide, by decide⟩

/-- C2 as amended.  In every reachable state in which the source has sent
`rs`, `Read` has returned `nil`, the deferred close has run and the context
is not done: if the sink has returned, it returned `nil` after handing exactly
`rs` to `os.Stdout.Write`, the output is `rs` less the records whose write
failed, and it is exactly `rs` when no write failed; if the sink has not
returned, its steps of `drainActs` are all enabled and lead to the sink
returned `nil` with exactly `rs` handed to `os.Stdout.Write` and, when no
write failed, exactly `rs` written; a terminated run returns `nil`; and with
a capacity of at least one a run without failed write exists for `rs`:
`normalRun rs` terminates with `rs` written and result `nil`. -/
theorem no_loss_when_writes_succeed (cap : Nat) (rs : List Record)
    (acts : List Action) (s : State)
    (h : exec cap init acts = some s) (hp : s.pushed = rs)
    (hsrc : s.source = .returned none) (hctx : s.cancelled = false) :
    (∀ e, s.sink = .returned e →
        e = none ∧ s.calls = rs ∧ s.out.Sublist rs ∧ (s.werrs = [] → s.out = rs)) ∧
      (∃ t, exec cap s (drainActs s) = some t ∧ t.sink = .returned none ∧
        t.calls = rs ∧ t.pushed = rs ∧ t.cancelled = false ∧ t.werrs = s.werrs ∧
        (s.werrs = [] → t.out = rs)) ∧
      (terminated s = true → runResult s = none) ∧
      (0 < cap → ∃ t, exec cap init (normalRun rs) = some t ∧ t.pushed = rs ∧
        t.out = rs ∧ t.werrs = [] ∧ t.source = .returned none ∧
        t.sink = .returned none ∧ t.cancelled = false ∧ terminated t = true ∧
        runResult t = none) := by
  obtain ⟨hacc, ⟨hcd, hse⟩, hrep, -, -⟩ := inv_reach cap acts s h
  have hdel := delivered_reach cap acts s h
  have hcl : s.closes = 1 := by
    unfold ClosedByDefer at hcd
    rw [hcd, hsrc]
  have hex : ∀ e, s.sink = .returned e → e = none ∧ s.buf = [] := by
    intro e he
    obtain ⟨h1, h2⟩ := hse e he
    refine ⟨h1, ?_⟩
    rcases h2 with h2 | h2
    · rw [hctx] at h2
      exact absurd h2 (by decide)
    · exact h2.1
  unfold Accounted at hacc
  refine ⟨?_, ?_, ?_, fun hcap => normalRun_complete cap hcap rs⟩
  · intro e he
    obtain ⟨h1, h2⟩ := hex e he
    have hcalls : s.calls = rs := by
      rw [← hp, hacc, he, h2]
      simp [inflight]
    refine ⟨h1, hcalls, ?_, ?_⟩
    · rw [← hcalls]
      exact hdel.1
    · intro hw
      rw [delivered_all s hdel hw, hcalls]
  · obtain ⟨t, ht, h1, h2, h3, h4, h5, h6⟩ := drainActs_exec cap s (by omega) hex
    refine ⟨t, ht, h1, by rw [h2, ← hacc, hp], by rw [h5, hp], by rw [h6, hctx], h4, ?_⟩
    intro hw
    rw [h3, delivered_all s hdel hw, ← hacc, hp]
  · intro hterm
    unfold terminated at hterm
    simp only [Bool.and_eq_true] at hterm
    unfold ReportsOk at hrep
    rw [hterm.1, hterm.2] at hrep
    obtain ⟨a, b, ha, hb, hr⟩ := hrep
    have ha0 : a = none := by
      rw [hsrc] at ha
      injection ha with ha
      exact ha.symm
    have hb0 : b = none := (hse b hb).1
    subst ha0 hb0
    unfold runResult
    rcases hr with hr | hr <;> rw [hr] <;> rfl

/-- Witness of the amended C2, the scenario of section 8: the source sends
`a`, `b`, `c` and closes, no write fails; the output is `a`, `b`, `c` and the
run returns `nil`. -/
theorem no_loss_when_writes_succeed_witness :
    exec 1 init (normalRun [recA, recB, recC]) = some abcFinal ∧
      abcFinal.pushed = [recA, recB, recC] ∧ abcFinal.source = .returned none ∧
      abcFinal.cancelled = false ∧
      ((∀ e, abcFinal.sink = .returned e →
          e = none ∧ abcFinal.calls = [recA, recB, recC] ∧
            abcFinal.out.Sublist [recA, recB, recC] ∧
            (abcFinal.werrs = [] → abcFinal.out = [recA, recB, recC])) ∧
        (∃ t, exec 1 abcFinal (drainActs abcFinal) = some t ∧ t.sink = .returned none ∧
          t.calls = [recA, recB, recC] ∧ t.pushed = [recA, recB, recC] ∧
          t.cancelled = false ∧ t.werrs = abcFinal.werrs ∧
          (abcFinal.werrs = [] → t.out = [recA, recB, recC])) ∧
        (terminated abcFinal = true → runResult abcFinal = none) ∧
        (0 < 1 → ∃ t, exec 1 init (normalRun [recA, recB, recC]) = some t ∧
          t.pushed = [recA, recB, recC] ∧ t.out = [recA, recB, recC] ∧
          t.werrs = [] ∧ t.source = .returned none ∧ t.sink = .returned none ∧
          t.cancelled = false ∧ terminated t = true ∧ runResult t = none)) :=
  ⟨by decide, by decide, by decide, by decide,
    no_loss_when_writes_succeed 1 [recA, recB, recC] (normalRun [recA, recB, recC])
      abcFinal (by decide) (by decide) (by decide) (by decide)⟩

/-- Counterexample to C3: the write of `a` fails with `errPipe`, and the sink
goes on to receive and write `b` and returns `nil` at the end of the stream. -/
theorem sink_write_failure_not_returned :
    exec 2 init writeFailSched = some writeFailState ∧
      writeFailState.werrs = [errPipe] ∧ writeFailState.calls = [recA, recB] ∧
      writeFailState.out = [recB] ∧ writeFailState.sink = .returned none :=
  ⟨by decide, by decide, by decide, by decide, by decide⟩

/-- C3 as amended.  When the sink holds a received record and its write fails
with `e`, the result of `os.Stdout.Write` is dropped: the sink is back at its
`select` with `e` recorded nowhere but in the device's log and the output
unchanged, and whenever the sink task returns afterwards it returns `nil`. -/
theorem sink_drops_write_error (cap : Nat) (acts : List Action) (s : State)
    (line : Record) (e : GoError)
    (h : exec cap init acts = some s) (hw : s.sink = .writing line) :
    step cap s (.sinkWrite (some e)) =
        some { s with calls := s.calls ++ [line], werrs := s.werrs ++ [e],
                      sink := .selecting } ∧
      (∀ more t r, exec cap s (.sinkWrite (some e) :: more) = some t →
        t.sink = .returned r → r = none) := by
  refine ⟨by simp [step, hw], ?_⟩
  intro more t r ht hr
  have hreach : exec cap init (acts ++ .sinkWrite (some e) :: more) = some t := by
    rw [exec_append, h]
    exact ht
  exact ((inv_reach cap _ t hreach).2.1.2 r hr).1

/-- Witness of the amended C3 at the state where the sink holds `a`. -/
theorem sink_drops_write_error_witness :
    exec 1 init heldSched = some heldState ∧ heldState.sink = .writing recA ∧
      (step 1 heldState (.sinkWrite (some errPipe)) =
          some { heldState with calls := heldState.calls ++ [recA],
                                werrs := heldState.werrs ++ [errPipe],
                                sink := .selecting } ∧
        (∀ more t r, exec 1 heldState (.sinkWrite (some errPipe) :: more) = some t →
          t.sink = .returned r → r = none)) :=
  ⟨by decide, by decide,
    sink_drops_write_error 1 heldSched heldState recA errPipe (by decide) (by decide)⟩

/-- C4 (source failure surfaced unmodified).  In every reachable state, once
`Read` has returned `e` it has returned exactly once, and the source func is
either about to run its deferred close with result `e` or has returned exactly
`e`; `e = none` is the case of `Read` returning `nil`. -/
theorem source_returns_read_result (cap : Nat) (acts : List Action) (s : State)
    (e : Option GoError)
    (h : exec cap init acts = some s) (hread : e ∈ readReturns acts) :
    readReturns acts = [e] ∧ (s.source = .closing e ∨ s.source = .returned e) ∧
      (∀ r, s.source = .returned r → r = e) := by
  have ht := sourceTracks_exec cap acts [] init s rfl h
  simp only [List.nil_append] at ht
  unfold SourceTracks at ht
  cases hsrc : s.source with
  | reading =>
    rw [hsrc] at ht
    simp only at ht
    rw [ht] at hread
    exact absurd hread (List.not_mem_nil _)
  | closing r =>
    rw [hsrc] at ht
    simp only at ht
    rw [ht] at hread
    have hre : e = r := List.mem_singleton.mp hread
    subst hre
    exact ⟨ht, Or.inl rfl, fun r hr => by simp at hr⟩
  | returned r =>
    rw [hsrc] at ht
    simp only at ht
    rw [ht] at hread
    have hre : e = r := List.mem_singleton.mp hread
    subst hre
    exact ⟨ht, Or.inr rfl, fun r hr => by simpa using hr.symm⟩

/-- Witness of C4: `Read` sends `a` and returns `ErrConnReset`. -/
theorem source_returns_read_result_witness :
    exec 1 init readFailSched = some readFailState ∧
      some GoError.errConnReset ∈ readReturns readFailSched ∧
      (readReturns readFailSched = [some GoError.errConnReset] ∧
        (readFailState.source = .closing (some GoError.errConnReset) ∨
          readFailState.source = .returned (some GoError.errConnReset)) ∧
        (∀ r, readFailState.source = .returned r → r = some GoError.errConnReset)) :=
  ⟨by decide, by decide,
    source_returns_read_result 1 readFailSched readFailState (some GoError.errConnReset)
      (by decide) (by decide)⟩

/-- C5 (queue closed exactly once on every source exit path).  In every
reachable state: if the source func has returned, `ch` has been closed exactly
once; if `Read` has returned `e`, whatever `e` is, `ch` is still open and
the deferred `close(ch)` is enabled and leaves the source returned `e` with
`ch` closed once; while `Read` runs `ch` is open; and a step that changes the
number of closes is the source's deferred close.  For every outcome `e` of
`Read` the exit path exists. -/
theorem queue_closed_exactly_once (cap : Nat) (acts : List Action) (s : State)
    (h : exec cap init acts = some s) :
    (∀ e, s.source = .returned e → s.closes = 1) ∧
      (∀ e, s.source = .closing e → s.closes = 0 ∧
        ∃ t, step cap s .closeCh = some t ∧ t.source = .returned e ∧ t.closes = 1) ∧
      (s.source = .reading → s.closes = 0) ∧
      (∀ a t, step cap s a = some t → t.closes ≠ s.closes →
        a = .closeCh ∧ ∃ e, s.source = .closing e) ∧
      (∀ e, ∃ t, exec cap init [.readReturn e, .closeCh] = some t ∧
        t.source = .returned e ∧ t.closes = 1) := by
  have hcd : ClosedByDefer s := (inv_reach cap acts s h).2.1.1
  unfold ClosedByDefer at hcd
  refine ⟨?_, ?_, ?_, ?_, ?_⟩
  · intro e he
    rw [hcd, he]
  · intro e he
    rw [he] at hcd
    simp only at hcd
    refine ⟨hcd, { s with closes := s.closes + 1, source := .returned e }, ?_, rfl, ?_⟩
    · simp [step, he]
    · simp [hcd]
  · intro he
    rw [hcd, he]
  · intro a t hstep hne
    cases a <;> simp only [step] at hstep <;> (repeat' (split at hstep)) <;>
      (first | (simp at hstep; done) | skip) <;>
      (first
        | exact ⟨rfl, _, by assumption⟩
        | (simp only [Option.some.injEq] at hstep; subst hstep
           exact absurd rfl hne))
  · intro e
    exact ⟨{ init with closes := 1, source := .returned e }, rfl, rfl, rfl⟩

/-- Witness of C5: `Read` has sent `a` and failed, and the source has
returned. -/
theorem queue_closed_exactly_once_witness :
    exec 1 init readFailSched = some readFailState ∧
      ((∀ e, readFailState.source = .returned e → readFailState.closes = 1) ∧
        (∀ e, readFailState.source = .closing e → readFailState.closes = 0 ∧
          ∃ t, step 1 readFailState .closeCh = some t ∧ t.source = .returned e ∧
            t.closes = 1) ∧
        (readFailState.source = .reading → readFailState.closes = 0) ∧
        (∀ a t, step 1 readFailState a = some t → t.closes ≠ readFailState.closes →
          a = .closeCh ∧ ∃ e, readFailState.source = .closing e) ∧
        (∀ e, ∃ t, exec 1 init [.readReturn e, .closeCh] = some t ∧
          t.source = .returned e ∧ t.closes = 1)) :=
  ⟨by decide, queue_closed_exactly_once 1 readFailSched readFailState (by decide)⟩

/-- Counterexample to C6: the source sends `a` and fails with `ErrConnReset`,
the runner cancels the context, and the sink takes the `ctx.Done()` branch
with `a` still in the buffer: the run terminates without `a` written. -/
theorem failure_scenario_output_lost :
    exec 1 init dropSched = some dropState ∧ dropState.pushed = [recA] ∧
      dropState.source = .returned (some GoError.errConnReset) ∧
      terminated dropState = true ∧ recA ∉ dropState.out :=
  ⟨by decide, by decide, by decide, by decide, by decide⟩

/-- C6 as amended.  In every terminated run in which the source has sent the
single record `a` and `Read` has failed with `ErrConnReset`, the output is
empty or is `a`, the run returns `ErrConnReset`, and the context is done. -/
theorem failure_scenario (cap : Nat) (acts : List Action) (s : State)
    (h : exec cap init acts = some s) (hp : s.pushed = [recA])
    (hsrc : s.source = .returned (some GoError.errConnReset))
    (hterm : terminated s = true) :
    (s.out = [] ∨ s.out = [recA]) ∧ runResult s = some GoError.errConnReset ∧
      s.cancelled = true := by
  obtain ⟨hacc, ⟨-, hse⟩, hrep, hcan, -⟩ := inv_reach cap acts s h
  unfold terminated at hterm
  simp only [Bool.and_eq_true] at hterm
  unfold ReportsOk at hrep
  rw [hterm.1, hterm.2] at hrep
  obtain ⟨a, b, ha, hb, hr⟩ := hrep
  have ha0 : a = some GoError.errConnReset := by
    rw [hsrc] at ha
    injection ha with ha
    exact ha.symm
  have hb0 : b = none := (hse b hb).1
  subst ha0 hb0
  have hpre : s.calls <+: [recA] := by
    unfold Accounted at hacc
    rw [← hp, hacc, List.append_assoc]
    exact List.prefix_append _ _
  have hsub : s.out.Sublist [recA] :=
    (delivered_reach cap acts s h).1.trans hpre.sublist
  refine ⟨?_, ?_, ?_⟩
  · exact List.sublist_singleton.mp hsub
  · unfold runResult
    rcases hr with hr | hr <;> rw [hr] <;> rfl
  · apply hcan GoError.errConnReset
    rcases hr with hr | hr <;> rw [hr] <;> simp

/-- Witness of the amended C6: the run in which `a` is written before the
failure. -/
theorem failure_scenario_witness :
    exec 1 init keepSched = some keepState ∧ keepState.pushed = [recA] ∧
      keepState.source = .returned (some GoError.errConnReset) ∧
      terminated keepState = true ∧
      ((keepState.out = [] ∨ keepState.out = [recA]) ∧
        runResult keepState = some GoError.errConnReset ∧ keepState.cancelled = true) :=
  ⟨by decide, by decide, by decide, by decide,
    failure_scenario 1 keepSched keepState (by decide) (by decide) (by decide) (by decide)⟩

/-- Counterexample to C7: the context is cancelled while `Read` is in
progress, `Read` answers with `context.Canceled`, and the source func returns
that error, not `nil`. -/
theorem source_cancel_error_returned :
    exec 1 init [.cancel] = some cancelledReading ∧
      cancelledReading.source = .reading ∧ cancelledReading.cancelled = true ∧
      exec 1 cancelledReading cancelErrSched = some cancelErrState ∧
      cancelErrState.source = .returned (some GoError.contextCanceled) ∧
      cancelErrState.source ≠ .returned none :=
  ⟨by decide, by decide, by decide, by decide, by decide, by decide⟩

/-- C7 as amended.  When the context is cancelled while `Read` is in progress
(`pre` leads to such a state) and the source func returns `e` later on, `Read`
has returned once after the cancellation and `e` is exactly the value it
returned; the source func returns `nil` only if `Read` returned `nil`. -/
theorem source_returns_read_result_after_cancel (cap : Nat) (pre post : List Action)
    (s1 s2 : State) (e : Option GoError)
    (h1 : exec cap init pre = some s1) (hrd : s1.source = .reading)
    (hc : s1.cancelled = true) (h2 : exec cap s1 post = some s2)
    (hret : s2.source = .returned e) :
    readReturns pre = [] ∧ readReturns post = [e] ∧ s2.cancelled = true ∧
      (e = none ↔ readReturns post = [none]) := by
  have hpre := sourceTracks_exec cap pre [] init s1 rfl h1
  simp only [List.nil_append] at hpre
  unfold SourceTracks at hpre
  rw [hrd] at hpre
  simp only at hpre
  have hpost := sourceTracks_exec cap post [] s1 s2 (by unfold SourceTracks; rw [hrd]) h2
  simp only [List.nil_append] at hpost
  unfold SourceTracks at hpost
  rw [hret] at hpost
  simp only at hpost
  have hmono : s2.cancelled = true := by
    refine exec_preserves cap (fun u => u.cancelled = true) ?_ post s1 s2 hc h2
    intro u a t hu hstep
    cases a <;> simp only [step] at hstep <;> (repeat' (split at hstep)) <;>
      (first | (simp at hstep; done) | skip) <;>
      (simp only [Option.some.injEq] at hstep; subst hstep; simp_all [observe])
  refine ⟨hpre, hpost, hmono, ?_⟩
  rw [hpost]
  simp

/-- Witness of the amended C7: `Read` answers the cancellation with
`context.Canceled`, which the source func returns. -/
theorem source_returns_read_result_after_cancel_witness :
    exec 1 init [.cancel] = some cancelledReading ∧
      cancelledReading.source = .reading ∧ cancelledReading.cancelled = true ∧
      exec 1 cancelledReading cancelErrSched = some cancelErrState ∧
      cancelErrState.source = .returned (some GoError.contextCanceled) ∧
      (readReturns [Action.cancel] = [] ∧
        readReturns cancelErrSched = [some GoError.contextCanceled] ∧
        cancelErrState.cancelled = true ∧
        (some GoError.contextCanceled = none ↔
          readReturns cancelErrSched = [none])) :=
  ⟨by decide, by decide, by decide, by decide, by decide,
    source_returns_read_result_after_cancel 1 [.cancel] cancelErrSched cancelledReading
      cancelErrState (some GoError.contextCanceled) (by decide) (by decide) (by decide)
      (by decide) (by decide)⟩

/-- C8 (sink treats cancellation and end of stream as non-failure).  With the
sink at its `select`: on a done context the `ctx.Done()` branch is enabled and
returns `nil`; on a closed and drained channel the receive branch is enabled
and returns `nil`; and with the channel empty and open and the context done,
the only enabled sink step is the `ctx.Done()` branch, which returns `nil`. -/
theorem sink_returns_nil_on_cancel_or_eos (cap : Nat) (s : State)
    (hsel : s.sink = .selecting) :
    (s.cancelled = true →
        step cap s .sinkDone = some { s with sink := .returned none }) ∧
      (s.buf = [] → s.closes ≠ 0 →
        step cap s .sinkRecv = some { s with sink := .returned none }) ∧
      (s.buf = [] → s.closes = 0 → s.cancelled = true →
        ∀ a t, isSinkAction a = true → step cap s a = some t →
          a = .sinkDone ∧ t = { s with sink := .returned none }) := by
  refine ⟨?_, ?_, ?_⟩
  · intro hc
    simp [step, hsel, hc]
  · intro hb hcl
    simp [step, hsel, hb, hcl]
  · intro hb hcl hc a t ha hstep
    cases a with
    | sinkDone =>
      simp only [step, hsel] at hstep
      rw [if_pos hc] at hstep
      exact ⟨rfl, (Option.some.inj hstep).symm⟩
    | sinkRecv => simp [step, hsel, hb, hcl] at hstep
    | sinkWrite res => simp [step, hsel] at hstep
    | _ => simp [isSinkAction] at ha

/-- Witness of C8: the sink blocked on an empty, open channel when the context
is done. -/
theorem sink_returns_nil_on_cancel_or_eos_witness :
    blockedCancelled.sink = .selecting ∧
      ((blockedCancelled.cancelled = true →
          step 1 blockedCancelled .sinkDone =
            some { blockedCancelled with sink := .returned none }) ∧
        (blockedCancelled.buf = [] → blockedCancelled.closes ≠ 0 →
          step 1 blockedCancelled .sinkRecv =
            some { blockedCancelled with sink := .returned none }) ∧
        (blockedCancelled.buf = [] → blockedCancelled.closes = 0 →
          blockedCancelled.cancelled = true →
          ∀ a t, isSinkAction a = true → step 1 blockedCancelled a = some t →
            a = .sinkDone ∧ t = { blockedCancelled with sink := .returned none })) :=
  ⟨by decide, sink_returns_nil_on_cancel_or_eos 1 blockedCancelled (by decide)⟩

/-- C9 (first error wins).  Start the runner on two tasks that have returned
`a` (source) and `b` (sink), neither observed yet.  In every execution that
ends with both observed, the recorded results are `a` and `b` in the order of
observation; if both are errors the run returns the one observed first, which
is one of the two and not `nil`, and the context is done; if neither is an
error the run returns `nil`. -/
theorem first_error_wins (cap : Nat) (s t : State) (a b : Option GoError)
    (acts : List Action)
    (hsrc : s.source = .returned a) (hsnk : s.sink = .returned b)
    (hfresh : s.reports = [] ∧ s.srcSeen = false ∧ s.snkSeen = false)
    (h : exec cap s acts = some t) (hterm : terminated t = true) :
    (t.reports = [a, b] ∨ t.reports = [b, a]) ∧
      (a ≠ none → b ≠ none →
        some (runResult t) = t.reports.head? ∧ (runResult t = a ∨ runResult t = b) ∧
          runResult t ≠ none ∧ t.cancelled = true) ∧
      (a = none → b = none → runResult t = none) := by
  obtain ⟨hr0, hs0, hk0⟩ := hfresh
  have hP : t.source = .returned a ∧ t.sink = .returned b ∧ ReportsOk t ∧
      CancelledOnError t := by
    refine exec_preserves cap
      (fun u => u.source = .returned a ∧ u.sink = .returned b ∧ ReportsOk u ∧
        CancelledOnError u) ?_ acts s t ⟨hsrc, hsnk, ?_, ?_⟩ h
    · intro u x v hu hstep
      exact ⟨returned_source_step cap u x v a hu.1 hstep,
        returned_sink_step cap u x v b hu.2.1 hstep,
        reportsOk_step cap u x v hu.2.2.1 hstep,
        cancelledOnError_step cap u x v hu.2.2.2 hstep⟩
    · unfold ReportsOk
      rw [hs0, hk0]
      exact hr0
    · intro e he
      rw [hr0] at he
      exact absurd he (List.not_mem_nil _)
  obtain ⟨hta, htb, hrep, hcan⟩ := hP
  unfold terminated at hterm
  simp only [Bool.and_eq_true] at hterm
  unfold ReportsOk at hrep
  rw [hterm.1, hterm.2] at hrep
  obtain ⟨a1, b1, ha1, hb1, hr⟩ := hrep
  have hea : a1 = a := by
    rw [hta] at ha1
    injection ha1 with ha1
    exact ha1.symm
  have heb : b1 = b := by
    rw [htb] at hb1
    injection hb1 with hb1
    exact hb1.symm
  subst hea heb
  refine ⟨hr, ?_, ?_⟩
  · intro hane hbne
    cases a1 with
    | none => exact absurd rfl hane
    | some e1 =>
      cases b1 with
      | none => exact absurd rfl hbne
      | some e2 =>
        have hc : t.cancelled = true := by
          apply hcan e1
          rcases hr with hr | hr <;> rw [hr] <;> simp
        unfold runResult
        rcases hr with hr | hr <;> rw [hr] <;> simp [cancelOnFirstError, hc]
  · intro ha0 hb0
    subst ha0 hb0
    unfold runResult
    rcases hr with hr | hr <;> rw [hr] <;> rfl

/-- Witness of C9: the source failed with `ErrConnReset`, the sink with
`errPipe`, and the runner observes the sink first. -/
theorem first_error_wins_witness :
    bothFailed.source = .returned (some GoError.errConnReset) ∧
      bothFailed.sink = .returned (some errPipe) ∧
      (bothFailed.reports = [] ∧ bothFailed.srcSeen = false ∧
        bothFailed.snkSeen = false) ∧
      exec 1 bothFailed [.observeSink, .observeSource] = some bothFailedDone ∧
      terminated bothFailedDone = true ∧
      ((bothFailedDone.reports = [some GoError.errConnReset, some errPipe] ∨
          bothFailedDone.reports = [some errPipe, some GoError.errConnReset]) ∧
        (some GoError.errConnReset ≠ none → some errPipe ≠ none →
          some (runResult bothFailedDone) = bothFailedDone.reports.head? ∧
            (runResult bothFailedDone = some GoError.errConnReset ∨
              runResult bothFailedDone = some errPipe) ∧
            runResult bothFailedDone ≠ none ∧ bothFailedDone.cancelled = true) ∧
        (some GoError.errConnReset = none → some errPipe = none →
          runResult bothFailedDone = none)) :=
  ⟨by decide, by decide, by decide, by decide, by decide,
    first_error_wins 1 bothFailed bothFailedDone (some GoError.errConnReset) (some errPipe)
      [.observeSink, .observeSource] (by decide) (by decide) (by decide) (by decide)
      (by decide)⟩

end Pipeline

namespace CtxSig

set_option linter.unusedTactic false

theorem sigExec_append (xs ys : List SigAction) (s : SigState) :
    sigExec s (xs ++ ys) = (sigExec s xs).bind (fun t => sigExec t ys) := by
  induction xs generalizing s with
  | nil => rfl
  | cons a rest ih =>
    simp only [List.cons_append, sigExec]
    cases sigStep s a with
    | none => rfl
    | some t => exact ih t

theorem sigExec_preserves (P : SigState → Prop)
    (hstep : ∀ s a t, P s → sigStep s a = some t → P t) :
    ∀ (acts : List SigAction) (s t : SigState), P s → sigExec s acts = some t → P t := by
  intro acts
  induction acts with
  | nil =>
    intro s t hs h
    simp only [sigExec, Option.some.injEq] at h
    exact h ▸ hs
  | cons a rest ih =>
    intro s t hs h
    simp only [sigExec] at h
    cases hst : sigStep s a with
    | none => simp [hst] at h
    | some u =>
      rw [hst] at h
      exact ih u t (hstep s a u hs hst) h

theorem sigInv_step (s : SigState) (a : SigAction) (t : SigState)
    (hs : SigInv s) (h : sigStep s a = some t) : SigInv t := by
  unfold SigInv at *
  cases a <;> simp only [sigStep] at h <;> (repeat' (split at h)) <;>
    (first | (simp at h; done) | skip) <;>
    (simp only [Option.some.injEq] at h; subst h) <;>
    (first | (simp_all; done) | aesop)

theorem sigInv_init (p : Bool) : SigInv (sigInit p) := by
  cases p <;> simp [SigInv, sigInit]

theorem derived_step (s : SigState) (a : SigAction) (t : SigState)
    (hs : s.derived = true) (h : sigStep s a = some t) : t.derived = true := by
  cases a <;> simp only [sigStep] at h <;> (repeat' (split at h)) <;>
    (first | (simp at h; done) | skip) <;>
    (simp only [Option.some.injEq] at h; subst h; simp_all)

/-- C10 (one-shot cancellation with two triggers).  In every state reachable
from the return of `contextWithSig`: the derived context is done only if the
parent is done or a subscribed signal has been received; once either trigger
has happened, the remaining steps of the goroutine (`finish`) are enabled
and lead to the derived context done; and from a state where the derived
context is done, every further execution leaves it done. -/
theorem derived_context_one_shot (p : Bool) (acts : List SigAction) (s : SigState)
    (h : sigExec (sigInit p) acts = some s) :
    (s.derived = true → s.parent = true ∨ s.sig = true) ∧
      (triggered s = true → ∃ t, sigExec s (finish s) = some t ∧ t.derived = true) ∧
      (s.derived = true → ∀ more t, sigExec s more = some t → t.derived = true) := by
  have hinv : SigInv s := sigExec_preserves SigInv sigInv_step acts (sigInit p) s (sigInv_init p) h
  obtain ⟨h1, h2, h3, h4, h5⟩ := hinv
  refine ⟨h1, ?_, ?_⟩
  · intro htr
    unfold triggered at htr
    simp only [Bool.or_eq_true] at htr
    cases hpc : s.pc with
    | subscribing =>
      have hsig := (h2 hpc).1
      have hpar : s.parent = true := by
        rcases htr with h | h
        · exact h
        · rw [hsig] at h
          exact absurd h (by decide)
      exact ⟨{ s with derived := true, pc := .exited },
        by simp [finish, sigExec, sigStep, hpc, hpar], rfl⟩
    | selecting =>
      have hpen := h3 hpc
      cases hp : s.pending with
      | true =>
        exact ⟨{ s with pending := false, derived := true, pc := .exited },
          by simp [finish, sigExec, sigStep, hpc, hp], rfl⟩
      | false =>
        have hpar : s.parent = true := by
          rcases htr with h | h
          · exact h
          · rw [← hpen, hp] at h
            exact absurd h (by decide)
        exact ⟨{ s with derived := true, pc := .exited },
          by simp [finish, sigExec, sigStep, hpc, hp, hpar], rfl⟩
    | cancelling =>
      exact ⟨{ s with derived := true, pc := .exited },
        by simp [finish, sigExec, sigStep, hpc], rfl⟩
    | exited =>
      exact ⟨s, by simp [finish, sigExec, hpc], h5 hpc⟩
  · intro hd more t ht
    exact sigExec_preserves (fun u => u.derived = true) derived_step more s t hd ht

/-- Witness of C10: a signal arrives while the goroutine waits at its
`select`. -/
theorem derived_context_one_shot_witness :
    sigExec (sigInit false) [.notify, .signal] = some signalled ∧
      ((signalled.derived = true → signalled.parent = true ∨ signalled.sig = true) ∧
        (triggered signalled = true →
          ∃ t, sigExec signalled (finish signalled) = some t ∧ t.derived = true) ∧
        (signalled.derived = true →
          ∀ more t, sigExec signalled more = some t → t.derived = true)) :=
  ⟨by decide, derived_context_one_shot false [.notify, .signal] signalled (by decide)⟩

end CtxSig
